import Mathlib

/-!
Shallow embedding of the departure-board aggregator (`src/app.py`) and proofs
of its specified properties.

Modelling conventions:
* ISO-8601 timestamp strings are abstracted by their parse outcome: a string is
  either Python-falsy (missing key, `None`, or `""`), a non-empty string that
  `datetime.fromisoformat` rejects, or a non-empty string that parses to an
  instant, represented in whole seconds.  Lexicographic comparison of
  well-formed ISO-8601 UTC strings of uniform shape coincides with the order of
  the instants they denote, so the instant also stands in for the raw string
  wherever the code compares or sorts the strings themselves.
* `datetime` subtraction followed by `.total_seconds() / 60` is modelled
  exactly: with instants in whole seconds the float `delta_minutes` compares to
  `1` and `-1` exactly as the integer second difference compares to `60` and
  `-60`, and Python `int()` on the quotient truncates toward zero, which is
  `Int.tdiv` on the second difference.
* Python dicts preserve insertion order; they are modelled as association
  lists.  Python sets carry no order; they are modelled as lists, and every
  place the code consumes a set it first sorts by an injective key, so the
  representation order never reaches the output.
* `requests` failures (network error, timeout, a non-2xx status raised by
  `raise_for_status`, malformed JSON) are the explicit failure constructors of
  `FetchResult`; the `try/except` in `get_departures` is the `match` on them.
-/

namespace Departures

/-- A raw ISO-8601 timestamp field as handed over by the upstream API,
abstracted by its parse outcome.  `absent` is a Python-falsy value (missing
key, `None`, or the empty string); `invalid` is a non-empty string rejected by
`datetime.fromisoformat`; `valid t` is a non-empty string parsing to the
instant `t`, counted in whole seconds. -/
inductive TimeStr where
  | absent
  | invalid
  | valid (t : Int)
deriving DecidableEq, Repr

/-- Embedding of `parse_datetime` (app.py:56-64): `None` for falsy input, `None` on a parse
error, otherwise the parsed instant. -/
def parse_datetime : TimeStr → Option Int
  | .absent => none
  | .invalid => none
  | .valid t => some t

/-- Python's `a or b` on timestamp strings: `absent` is falsy, both `invalid`
and `valid` are non-empty strings and hence truthy. -/
def timeOr (a b : TimeStr) : TimeStr :=
  match a with
  | .absent => b
  | x => x

/-- Embedding of `calculate_delay_status` (app.py:66-83).  `delta_minutes` is the second
difference divided by 60; `delta_minutes > 1` iff the difference exceeds 60
seconds, and `int(delta_minutes)` truncates toward zero, i.e. `Int.tdiv` of the
second difference by 60. -/
def calculate_delay_status (scheduled_str expected_str : TimeStr) :
    Option String × Option Int :=
  match parse_datetime scheduled_str, parse_datetime (timeOr expected_str scheduled_str) with
  | some s_dt, some e_dt =>
    let d := e_dt - s_dt
    let status :=
      if 60 < d then "+" ++ toString (d.tdiv 60) ++ " min"
      else if d < -60 then toString (d.tdiv 60) ++ " min"
      else "On Time"
    (some status, some e_dt)
  | _, _ => (none, none)

/-- A (line, destination-substring) filter, as built by `get_config`
(app.py:38-41): `line` normalised by `str(...)`, `dest` lowercased. -/
structure Filter where
  line : String
  dest : String
deriving DecidableEq, Repr

/-- Python `str(...)` applied to an optional string: `str(None) = "None"`. -/
def strOf : Option String → String
  | some s => s
  | none => "None"

/-- Python `str.lower()`, character-wise (the configuration and API data the
claims exercise are ASCII, where Python's and Lean's case mappings agree). -/
def strLower (s : String) : String :=
  String.mk (s.data.map Char.toLower)

/-- Python's substring test `needle in hay`. -/
def strContains (hay needle : String) : Bool :=
  decide (needle.data <:+: hay.data)

/-- Embedding of `matches_filter` (app.py:85-93): the early-`return True` loop is `List.any`. -/
def matches_filter (line_num : Option String) (destination : String)
    (filters : List Filter) : Bool :=
  let line_str := strOf line_num
  let dest_lower := strLower destination
  filters.any (fun criteria => line_str == criteria.line && strContains dest_lower criteria.dest)

/-- The single-slot result cache `_cache` (app.py:53): a payload and the
instant it was captured, both `None` until the first store. -/
structure Cache (α : Type) where
  data : Option α
  timestamp : Option Int
deriving DecidableEq, Repr

/-- Embedding of `get_cached_data` (app.py:161-170): a miss while either slot field is
`None`, otherwise the payload iff its age is strictly below the TTL. -/
def get_cached_data {α : Type} (c : Cache α) (now ttl : Int) : Option α :=
  match c.data, c.timestamp with
  | some d, some ts => if now - ts < ttl then some d else none
  | _, _ => none

/-- Embedding of `cache_data` (app.py:172-175): unconditionally replace both fields. -/
def cache_data {α : Type} (_c : Cache α) (now : Int) (d : α) : Cache α :=
  { data := some d, timestamp := some now }

/-- A deviation record as it appears in the upstream payload (per-departure
`dep['deviations']` entries and `stop_deviations` entries): `message` and
`consequence` are `none` when the key is absent.  Other payload fields are
ignored by the code and omitted from the model. -/
structure RawDeviation where
  message : Option String
  consequence : Option String
deriving DecidableEq, Repr

/-- One upstream departure record, with the fields `get_departures` reads:
`line_num` is the already-resolved line designation (`line.designation` or the
flat `line_designation`), `destination` is the raw `destination` key (defaults
applied at each use site, as in the code), `scheduled`/`expected` are the raw
timestamp strings, `deviations` the per-departure alerts, and `stop_area_name`
the `stop_area.name` field. -/
structure Departure where
  line_num : Option String
  destination : Option String
  scheduled : TimeStr
  expected : TimeStr
  deviations : List RawDeviation
  stop_area_name : Option String
deriving DecidableEq, Repr

/-- Rendering `e_dt.strftime("%H:%M")` for an instant in whole seconds (UTC wall clock,
as `fromisoformat` with a `+00:00` offset yields). -/
def fmtHM (t : Int) : String :=
  let two := fun (n : Int) => if n < 10 then "0" ++ toString n else toString n
  two ((t.ediv 3600).emod 24) ++ ":" ++ two ((t.ediv 60).emod 60)

/-- The dict built by `enrich_departure` (app.py:95-109): the spread original
departure plus `display_time`, `status_text` and `line_num`. -/
structure EnrichedDep where
  dep : Departure
  display_time : String
  status_text : String
  line_num : Option String
deriving DecidableEq, Repr

/-- Embedding of `enrich_departure` (app.py:95-109).  `exp_str = departure.get('expected')
or sched_str`; the `filters` argument is accepted and unused, as in the code.
The statuses `calculate_delay_status` produces are never empty strings and
parsed datetimes are never falsy, so `if not status or not e_dt` is exactly
the `(none, none)` case. -/
def enrich_departure (departure : Departure) (line_num : Option String)
    (_filters : List Filter) : Option EnrichedDep :=
  let sched_str := departure.scheduled
  let exp_str := timeOr departure.expected sched_str
  match calculate_delay_status sched_str exp_str with
  | (some status, some e_dt) =>
    some { dep := departure, display_time := fmtHM e_dt,
           status_text := status, line_num := line_num }
  | _ => none

/-- A decoded upstream response body: the `departures` and `stop_deviations`
arrays (absent keys default to `[]` via `.get(..., [])`). -/
structure FetchResponse where
  departures : List Departure
  stop_deviations : List RawDeviation
deriving DecidableEq, Repr

/-- Outcome of one upstream request, with the failure modes the `try/except`
in `get_departures` catches: network error or timeout
(`requests.exceptions.RequestException`), a non-2xx status raised by
`raise_for_status`, or a body `.json()` cannot decode. -/
inductive FetchResult where
  | ok (response : FetchResponse)
  | networkError
  | timeoutError
  | badStatus
  | malformedPayload
deriving DecidableEq, Repr

/-- Does this outcome take one of the `except` branches? -/
def isFailure : FetchResult → Bool
  | .ok _ => false
  | _ => true

/-- The sort key of app.py:146, `x.get('expected') or x.get('scheduled')`,
read as the instant the raw string denotes (lexicographic order on uniform
ISO-8601 UTC strings is chronological order).  Every element actually sorted
has survived `enrich_departure`, so the resolved key is a parseable string;
the fallback `0` arm is unreachable there. -/
def sortKey (x : EnrichedDep) : Int :=
  match timeOr x.dep.expected x.dep.scheduled with
  | .valid t => t
  | _ => 0

/-- The comparison `filtered.sort(key=...)` sorts by. -/
def depLe (a b : EnrichedDep) : Bool :=
  decide (sortKey a ≤ sortKey b)

/-- Insert `a` after every element `b` with `le b a`: the insertion step of a
stable insertion sort (equal keys keep their original relative order, like
Python's stable `list.sort`). -/
def sinsert {α : Type} (le : α → α → Bool) (a : α) : List α → List α
  | [] => [a]
  | b :: l => if le b a then b :: sinsert le a l else a :: b :: l

/-- Stable sort by the comparison `le`, modelling Python's `list.sort` /
`sorted` (any two stable sorts by the same total preorder agree). -/
def pySort {α : Type} (le : α → α → Bool) (l : List α) : List α :=
  l.foldl (fun acc a => sinsert le a acc) []

/-- Embedding of `get_departures` (app.py:111-154) given the outcome of the single upstream
request: on success, extract the site name from the first raw departure,
filter-and-enrich, and sort stably (Python's Timsort is stable, as is
`pySort`); on any caught failure, `(None, [], [])`. -/
def get_departures (result : FetchResult) (filters : List Filter) :
    Option String × List EnrichedDep × List RawDeviation :=
  match result with
  | .ok data =>
    let site_name : Option String :=
      match data.departures with
      | [] => none
      | d :: _ => d.stop_area_name
    let filtered := data.departures.filterMap (fun dep =>
      let line_num := dep.line_num
      let destination := dep.destination.getD "Unknown"
      if matches_filter line_num destination filters then
        enrich_departure dep line_num filters
      else none)
    (site_name, pySort depLe filtered, data.stop_deviations)
  | _ => (none, [], [])

/-- Per-site entry of the grouped configuration (app.py:36): the optional
display label and the site's filter list for one group. -/
structure SiteConfig where
  label : Option String
  filters : List Filter
deriving DecidableEq, Repr

/-- The `grouped` dict built by `get_config` (app.py:27-41): group name →
site id → SiteConfig, insertion-ordered, with unique keys at both levels. -/
abbrev GroupedConfig := List (String × List (Nat × SiteConfig))

/-- One step of Python's `if x not in seen: seen.append(x)` idiom. -/
def seenInsert {α : Type} [DecidableEq α] (acc : List α) (a : α) : List α :=
  if a ∈ acc then acc else acc ++ [a]

/-- First-occurrence deduplication, the order in which a Python dict indexed
by these keys iterates. -/
def firstDedup {α : Type} [DecidableEq α] (l : List α) : List α :=
  l.foldl seenInsert []

/-- The first pass of `get_data` (app.py:193-197): the keys of `site_data`,
i.e. every site id of every group, first-occurrence order, deduplicated. -/
def collectSites (grouped : GroupedConfig) : List Nat :=
  firstDedup (grouped.flatMap (fun g => g.2.map Prod.fst))

/-- The `all_filters` list of app.py:201-206: the filters of every group that
contains this site, concatenated in group order. -/
def all_filters_for (grouped : GroupedConfig) (site_id : Nat) : List Filter :=
  grouped.flatMap (fun g =>
    match g.2.lookup site_id with
    | some sc => sc.filters
    | none => [])

/-- The fetches the second pass of `get_data` (app.py:199-212) issues: one per
collected site, each with that site's combined filter list. -/
def fetch_calls (grouped : GroupedConfig) : List (Nat × List Filter) :=
  (collectSites grouped).map (fun s => (s, all_filters_for grouped s))

/-- The `site_data[site_id]` record the second pass stores: the result of the
one `get_departures` call for this site.  The third pass only looks up site
ids of `grouped`, all of which are collected, so the dict entry always holds
exactly this value. -/
def site_result (grouped : GroupedConfig) (oracle : Nat → FetchResult)
    (site_id : Nat) : Option String × List EnrichedDep × List RawDeviation :=
  get_departures (oracle site_id) (all_filters_for grouped site_id)

/-- Python's `a or b` for an optional string `a`: `None` and `""` are falsy. -/
def pyOrStr (a : Option String) (b : String) : String :=
  match a with
  | some s => if s == "" then b else s
  | none => b

/-- Truthiness of an optional string (`if line_num:`). -/
def truthyStr : Option String → Bool
  | some s => !(s == "")
  | none => false

/-- The display name `site_config['label'] or site_info.get('site_name') or f"Site {site_id}"`
(app.py:236). -/
def display_name_of (label site_name : Option String) (site_id : Nat) : String :=
  pyOrStr label (pyOrStr site_name ("Site " ++ toString site_id))

/-- A deviation record inside `group_deviations` (app.py:244-257): the copied
upstream record plus the attached `lines` set (modelled as a list; every
consumer sorts it by an injective key, so representation order is invisible). -/
structure GDev where
  message : Option String
  consequence : Option String
  lines : List String
deriving DecidableEq, Repr

/-- The deviations one shown station contributes to `group_deviations`
(app.py:242-257): each stop-level deviation with an empty line set, then for
each group-visible departure each of its deviations tagged with that
departure's line (untagged if the line number is falsy). -/
def station_devs (site_info : Option String × List EnrichedDep × List RawDeviation)
    (filtered_deps : List EnrichedDep) : List GDev :=
  site_info.2.2.map (fun dv =>
    { message := dv.message, consequence := dv.consequence, lines := [] })
  ++ filtered_deps.flatMap (fun dep =>
      dep.dep.deviations.map (fun dv =>
        { message := dv.message, consequence := dv.consequence,
          lines := if truthyStr dep.line_num then [strOf dep.line_num] else [] }))

/-- The key `msg = dev.get('message')` followed by `if not msg: continue`: the
dedup key, or `none` when the message is falsy. -/
def truthyMsg (d : GDev) : Option String :=
  match d.message with
  | some m => if m == "" then none else some m
  | none => none

/-- Python `set.update`: adjoin the elements not already present. -/
def unionL (a b : List String) : List String :=
  a ++ b.filter (fun x => !(a.contains x))

/-- One iteration of the dedup loop (app.py:262-269) over the insertion-ordered
map `dev_map`: skip falsy messages, seed on first occurrence, otherwise union
the line set into the seeded record. -/
def dedupStep (acc : List (String × GDev)) (dv : GDev) : List (String × GDev) :=
  match truthyMsg dv with
  | none => acc
  | some m =>
    if (acc.lookup m).isSome then
      acc.map (fun p =>
        if p.1 == m then (p.1, { p.2 with lines := unionL p.2.lines dv.lines }) else p)
    else acc ++ [(m, dv)]

/-- The full `dev_map` after the dedup loop. -/
def dedup_devs (devs : List GDev) : List (String × GDev) :=
  devs.foldl dedupStep []

/-- Lexicographic order on code points, Python string `<=`. -/
def lexLe : List Char → List Char → Bool
  | [], _ => true
  | _ :: _, [] => false
  | a :: as, b :: bs => if a = b then lexLe as bs else decide (a < b)

/-- The sort key `lambda x: (len(x), x)` of app.py:278, as a comparison. -/
def lenLexLe (a b : String) : Bool :=
  decide (a.data.length < b.data.length)
  || ((a.data.length == b.data.length) && lexLe a.data b.data)

/-- A rendered deviation as emitted (app.py:271-285): the formatted `message`
plus the record's original `consequence` field, which the code leaves in the
dict. -/
structure OutDev where
  message : String
  consequence : Option String
deriving DecidableEq, Repr

/-- Rendering of one deduplicated entry (app.py:272-285): `consequence`
defaults to `"ALERT"` when absent; a non-empty line set is sorted by
`(len, lex)` and joined with `", "` into a `Line ...:` prefix. -/
def renderDev (p : String × GDev) : OutDev :=
  let effect := p.2.consequence.getD "ALERT"
  let text := p.2.message.getD ""
  if p.2.lines.isEmpty then
    { message := "[" ++ effect ++ "] " ++ text, consequence := p.2.consequence }
  else
    { message := "Line " ++
        String.intercalate ", " (pySort lenLexLe p.2.lines) ++
        ": [" ++ effect ++ "] " ++ text,
      consequence := p.2.consequence }

/-- The `unique_deviations` list (app.py:259-285): dedup then render, in
first-occurrence insertion order. -/
def aggregate_deviations (devs : List GDev) : List OutDev :=
  (dedup_devs devs).map renderDev

/-- One output station (app.py:237-240). -/
structure Station where
  station : String
  departures : List EnrichedDep
deriving DecidableEq, Repr

/-- One output group (app.py:287-291). -/
structure AggGroup where
  group : String
  stations : List Station
  deviations : List OutDev
deriving DecidableEq, Repr

/-- The scalar settings `get_data` reads from the configuration
(app.py:180-183), besides the cache TTL handled by the cache model. -/
structure Config where
  grouped : GroupedConfig
  group_order : List String
  max_departures : Nat
deriving Repr

/-- The group-specific re-filter of app.py:230-233 over the site's fetched
(already enriched) departures; note the `''` destination default here, versus
`'Unknown'` in `get_departures`. -/
def group_filtered (deps : List EnrichedDep) (group_filters : List Filter) :
    List EnrichedDep :=
  deps.filter (fun dep =>
    matches_filter dep.line_num (dep.dep.destination.getD "") group_filters)

/-- The third-pass body for one name of `group_order` (app.py:216-291):
skipped if the name is not a configured group; per site, the group's own
filters select from the fetched departures, a station is appended (truncated
to `max_departures`) and its deviations collected only when that selection is
non-empty; the group is emitted only when it has at least one station. -/
def station_piece (cfg : Config) (oracle : Nat → FetchResult)
    (p : Nat × SiteConfig) : Option Station × List GDev :=
  let site_info := site_result cfg.grouped oracle p.1
  let filtered_deps := group_filtered site_info.2.1 p.2.filters
  if filtered_deps.isEmpty then
    ((none : Option Station), ([] : List GDev))
  else
    (some { station := display_name_of p.2.label site_info.1 p.1,
            departures := filtered_deps.take cfg.max_departures },
     station_devs site_info filtered_deps)

def build_group (cfg : Config) (oracle : Nat → FetchResult)
    (group_name : String) : Option AggGroup :=
  match cfg.grouped.lookup group_name with
  | none => none
  | some sites =>
    let pieces := sites.map (station_piece cfg oracle)
    let group_stations := pieces.filterMap Prod.fst
    if group_stations.isEmpty then none
    else some { group := group_name, stations := group_stations,
                deviations := aggregate_deviations (pieces.flatMap Prod.snd) }

/-- One cache-miss aggregation pass of `get_data` (app.py:190-294): the result
list, one entry per emitted name of `group_order` in that order.  `oracle`
gives the outcome of the single upstream request per site. -/
def get_data (cfg : Config) (oracle : Nat → FetchResult) : List AggGroup :=
  cfg.group_order.filterMap (fun group_name => build_group cfg oracle group_name)

/-- The `/api/data` handler around the pass (app.py:177-298): serve the cached
payload when fresh, otherwise run one pass and store it. -/
def api_data (cfg : Config) (cache : Cache (List AggGroup)) (now ttl : Int)
    (oracle : Nat → FetchResult) : List AggGroup × Cache (List AggGroup) :=
  match get_cached_data cache now ttl with
  | some d => (d, cache)
  | none =>
    let results := get_data cfg oracle
    (results, cache_data cache now results)

/-- Reference characterization of the dedup loop, following the spec's words
(`spec.md` §4.5) for comparison with `aggregate_deviations`: the occurrences
of one message, in order. -/
def specOccurrences (devs : List GDev) (m : String) : List GDev :=
  devs.filter (fun d => truthyMsg d == some m)

/-- Reference characterization following the spec's words: the canonical
record for one message — the first occurrence seeds it, and every later
occurrence with the same message unions its line set into it. -/
def specEntry (devs : List GDev) (m : String) : GDev :=
  match specOccurrences devs m with
  | [] => { message := none, consequence := none, lines := [] }
  | first :: rest =>
    { first with lines := rest.foldl (fun a d => unionL a d.lines) first.lines }

/-- Reference aggregation following the spec's words: one rendered entry per
distinct truthy message, in first-occurrence order, each built from that
message's canonical record. -/
def aggregateSpec (devs : List GDev) : List OutDev :=
  (firstDedup (devs.filterMap truthyMsg)).map (fun m => renderDev (m, specEntry devs m))

/-! ## Helper lemmas -/

theorem mem_sinsert {α : Type} (le : α → α → Bool) (a x : α) (l : List α) :
    x ∈ sinsert le a l ↔ x = a ∨ x ∈ l := by
  induction l with
  | nil => simp [sinsert]
  | cons b l ih =>
    rw [sinsert]
    by_cases h : le b a = true
    · rw [if_pos h]
      simp only [List.mem_cons, ih]
      tauto
    · rw [if_neg h]
      simp [List.mem_cons]

theorem mem_pySort {α : Type} (le : α → α → Bool) (l : List α) (x : α) :
    x ∈ pySort le l ↔ x ∈ l := by
  have key : ∀ (l acc : List α),
      x ∈ l.foldl (fun acc a => sinsert le a acc) acc ↔ x ∈ acc ∨ x ∈ l := by
    intro l
    induction l with
    | nil => simp
    | cons a l ih =>
      intro acc
      simp only [List.foldl_cons, ih, mem_sinsert, List.mem_cons]
      tauto
  simpa using key l []

theorem pairwise_sinsert {α : Type} (le : α → α → Bool)
    (htrans : ∀ a b c, le a b = true → le b c = true → le a c = true)
    (htotal : ∀ a b, le a b || le b a)
    (a : α) (l : List α) (h : l.Pairwise (fun x y => le x y = true)) :
    (sinsert le a l).Pairwise (fun x y => le x y = true) := by
  induction l with
  | nil => simp [sinsert]
  | cons b l ih =>
    rw [sinsert]
    rcases List.pairwise_cons.mp h with ⟨hb, hl⟩
    by_cases hba : le b a = true
    · rw [if_pos hba]
      rw [List.pairwise_cons]
      refine ⟨?_, ih hl⟩
      intro x hx
      rcases (mem_sinsert le a x l).mp hx with rfl | hx
      · exact hba
      · exact hb x hx
    · rw [if_neg hba]
      have hab : le a b = true := by
        have := htotal a b
        rw [Bool.or_eq_true] at this
        rcases this with h' | h'
        · exact h'
        · exact absurd h' hba
      rw [List.pairwise_cons]
      refine ⟨?_, h⟩
      intro x hx
      rcases List.mem_cons.mp hx with rfl | hx
      · exact hab
      · exact htrans a b x hab (hb x hx)

theorem pairwise_pySort {α : Type} (le : α → α → Bool)
    (htrans : ∀ a b c, le a b = true → le b c = true → le a c = true)
    (htotal : ∀ a b, le a b || le b a) (l : List α) :
    (pySort le l).Pairwise (fun x y => le x y = true) := by
  have key : ∀ (l acc : List α), acc.Pairwise (fun x y => le x y = true) →
      (l.foldl (fun acc a => sinsert le a acc) acc).Pairwise
        (fun x y => le x y = true) := by
    intro l
    induction l with
    | nil => exact fun acc h => h
    | cons a l ih =>
      intro acc h
      exact ih _ (pairwise_sinsert le htrans htotal a acc h)
  exact key l [] List.Pairwise.nil

theorem mem_foldl_seenInsert {α : Type} [DecidableEq α] (l acc : List α) (a : α) :
    a ∈ l.foldl seenInsert acc ↔ a ∈ acc ∨ a ∈ l := by
  induction l generalizing acc with
  | nil => simp
  | cons b l ih =>
    simp only [List.foldl_cons, ih, seenInsert]
    by_cases hb : b ∈ acc
    · simp only [if_pos hb, List.mem_cons]
      constructor
      · rintro (h | h)
        · exact Or.inl h
        · exact Or.inr (Or.inr h)
      · rintro (h | h | h)
        · exact Or.inl h
        · exact Or.inl (h ▸ hb)
        · exact Or.inr h
    · simp only [if_neg hb, List.mem_append, List.mem_cons, List.not_mem_nil,
        or_false, or_assoc]

theorem mem_firstDedup {α : Type} [DecidableEq α] (l : List α) (a : α) :
    a ∈ firstDedup l ↔ a ∈ l := by
  simpa using mem_foldl_seenInsert l [] a

theorem nodup_foldl_seenInsert {α : Type} [DecidableEq α] (l : List α) :
    ∀ acc : List α, acc.Nodup → (l.foldl seenInsert acc).Nodup := by
  induction l with
  | nil => intro acc h; simpa using h
  | cons b l ih =>
    intro acc h
    simp only [List.foldl_cons]
    apply ih
    unfold seenInsert
    by_cases hb : b ∈ acc
    · simpa [hb] using h
    · rw [if_neg hb]
      exact List.nodup_append.mpr ⟨h, List.nodup_singleton b, by simpa using hb⟩

theorem nodup_firstDedup {α : Type} [DecidableEq α] (l : List α) :
    (firstDedup l).Nodup :=
  nodup_foldl_seenInsert l [] List.nodup_nil

theorem firstDedup_concat {α : Type} [DecidableEq α] (l : List α) (a : α) :
    firstDedup (l ++ [a]) = seenInsert (firstDedup l) a := by
  simp [firstDedup, List.foldl_append]

theorem lookup_map_self {α β : Type} [BEq α] [LawfulBEq α] [DecidableEq α]
    (ks : List α) (f : α → β) (m : α) :
    (ks.map (fun k => (k, f k))).lookup m = if m ∈ ks then some (f m) else none := by
  induction ks with
  | nil => simp
  | cons k ks ih =>
    by_cases h : m = k
    · subst h
      simp [List.lookup_cons]
    · have hbeq : (m == k) = false := by
        simpa using h
      simp [List.lookup_cons, hbeq, ih, h]

theorem lookup_eq_some_iff_mem {α β : Type} [BEq α] [LawfulBEq α] [DecidableEq α]
    (l : List (α × β)) (h : (l.map Prod.fst).Nodup) (a : α) (b : β) :
    l.lookup a = some b ↔ (a, b) ∈ l := by
  induction l with
  | nil => simp
  | cons p l ih =>
    obtain ⟨k, v⟩ := p
    simp only [List.map_cons, List.nodup_cons] at h
    by_cases ha : a = k
    · subst ha
      simp only [List.lookup_cons, beq_self_eq_true, List.mem_cons, Option.some.injEq,
        Prod.mk.injEq]
      constructor
      · rintro rfl
        exact Or.inl ⟨trivial, rfl⟩
      · rintro (⟨-, rfl⟩ | hb)
        · rfl
        · exact ((h.1 (List.mem_map_of_mem Prod.fst hb)).elim)
    · have hbeq : (a == k) = false := by
        simpa using ha
      simp only [List.lookup_cons, hbeq, List.mem_cons, Prod.mk.injEq]
      rw [ih h.2]
      constructor
      · exact Or.inr
      · rintro (⟨h1, h2⟩ | hb)
        · exact absurd h1 ha
        · exact hb

/-! ## C1: fetch deduplication -/

/-- C1: per cache-miss pass, a stop id referenced by two or more groups (over
a grouped configuration with the per-level key uniqueness a Python dict
guarantees) is fetched exactly once, and the filter list handed to that fetch
holds exactly the union of the filters of every group referencing the stop. -/
theorem claim_C1_dedup_fetch (grouped : GroupedConfig) (s : Nat)
    (hkeys : ∀ g ∈ grouped, (g.2.map Prod.fst).Nodup)
    (href : 2 ≤ (grouped.filter (fun g => (g.2.lookup s).isSome)).length) :
    ((fetch_calls grouped).countP (fun c => c.1 == s) = 1)
    ∧ (∀ fs, (s, fs) ∈ fetch_calls grouped →
        ∀ f : Filter, f ∈ fs ↔
          ∃ p ∈ grouped, ∃ sc : SiteConfig, (s, sc) ∈ p.2 ∧ f ∈ sc.filters) := by
  have hmem : s ∈ collectSites grouped := by
    have : 0 < (grouped.filter (fun g => (g.2.lookup s).isSome)).length := by omega
    rw [List.length_pos] at this
    obtain ⟨g, hg⟩ := List.exists_mem_of_ne_nil _ this
    rw [List.mem_filter] at hg
    obtain ⟨hgmem, hlook⟩ := hg
    rw [List.lookup_isSome_iff] at hlook
    obtain ⟨p, hp, hps⟩ := hlook
    rw [beq_iff_eq] at hps
    rw [collectSites, mem_firstDedup, List.mem_flatMap]
    exact ⟨g, hgmem, List.mem_map.mpr ⟨p, hp, hps.symm⟩⟩
  constructor
  · rw [fetch_calls, List.countP_map]
    have hcount : (collectSites grouped).countP
        ((fun c : Nat × List Filter => c.1 == s) ∘ (fun t => (t, all_filters_for grouped t)))
        = (collectSites grouped).count s := by
      rfl
    rw [hcount]
    exact List.count_eq_one_of_mem (nodup_firstDedup _) hmem
  · intro fs hfs f
    rw [fetch_calls, List.mem_map] at hfs
    obtain ⟨t, _, ht⟩ := hfs
    obtain ⟨rfl, rfl⟩ : t = s ∧ fs = all_filters_for grouped t := by
      have h1 := congrArg Prod.fst ht
      have h2 := congrArg Prod.snd ht
      simp only at h1 h2
      exact ⟨h1, h2.symm⟩
    rw [all_filters_for, List.mem_flatMap]
    constructor
    · rintro ⟨g, hg, hf⟩
      rcases hlook : g.2.lookup t with _ | sc
      · rw [hlook] at hf
        simp at hf
      · rw [hlook] at hf
        exact ⟨g, hg, sc, (lookup_eq_some_iff_mem g.2 (hkeys g hg) t sc).mp hlook, hf⟩
    · rintro ⟨g, hg, sc, hsc, hf⟩
      refine ⟨g, hg, ?_⟩
      rw [(lookup_eq_some_iff_mem g.2 (hkeys g hg) t sc).mpr hsc]
      exact hf

/-- Witness for C1 on a configuration where two groups reference site 1555. -/
theorem claim_C1_dedup_fetch_witness :
    (fetch_calls
      [("TO WORK", [(1555, ⟨some "Home", [⟨"30", "solna"⟩]⟩)]),
       ("FROM WORK", [(1555, ⟨none, [⟨"41", "sundbyberg"⟩]⟩)])]).countP
      (fun c => c.1 == 1555) = 1 :=
  (claim_C1_dedup_fetch
    [("TO WORK", [(1555, ⟨some "Home", [⟨"30", "solna"⟩]⟩)]),
     ("FROM WORK", [(1555, ⟨none, [⟨"41", "sundbyberg"⟩]⟩)])]
    1555 (by decide) (by decide)).1

/-! ## C2: delay status -/

/-- C2: for parseable `scheduled`/`expected` instants (with `expected`
defaulting to `scheduled` when absent) and `delta = expected - scheduled` in
fractional minutes, the status is `"+{n} min"` when `delta > 1`, `"{n} min"`
when `delta < -1`, and `"On Time"` otherwise, where `n` is `delta` truncated
toward zero (`Int.tdiv` of the second difference by 60) rather than rounded;
in particular `+2 min` at +2 minutes, `-3 min` at −3 minutes, `On Time` at
+30 seconds, and `+1 min` at +90 seconds. -/
theorem claim_C2_delay_status (ts te : Int) :
    (calculate_delay_status (.valid ts) (.valid te) =
      (some (if 1 < ((te - ts : Int) : ℚ) / 60 then
               "+" ++ toString ((te - ts).tdiv 60) ++ " min"
             else if ((te - ts : Int) : ℚ) / 60 < -1 then
               toString ((te - ts).tdiv 60) ++ " min"
             else "On Time"),
       some te))
    ∧ calculate_delay_status (.valid ts) .absent = (some "On Time", some ts)
    ∧ calculate_delay_status (.valid ts) (.valid (ts + 120)) = (some "+2 min", some (ts + 120))
    ∧ calculate_delay_status (.valid ts) (.valid (ts - 180)) = (some "-3 min", some (ts - 180))
    ∧ calculate_delay_status (.valid ts) (.valid (ts + 30)) = (some "On Time", some (ts + 30))
    ∧ calculate_delay_status (.valid ts) (.valid (ts + 90)) = (some "+1 min", some (ts + 90)) := by
  have key : ∀ d : Int, (1 < (d : ℚ) / 60 ↔ 60 < d) ∧ ((d : ℚ) / 60 < -1 ↔ d < -60) := by
    intro d
    constructor
    · rw [lt_div_iff₀ (by norm_num : (0 : ℚ) < 60), one_mul]
      exact_mod_cast Iff.rfl
    · rw [div_lt_iff₀ (by norm_num : (0 : ℚ) < 60)]
      norm_num
      exact_mod_cast Iff.rfl
  refine ⟨?_, ?_, ?_, ?_, ?_, ?_⟩
  · simp only [calculate_delay_status, parse_datetime, timeOr]
    rw [if_congr ((key (te - ts)).1.symm) rfl (if_congr ((key (te - ts)).2.symm) rfl rfl)]
  · simp [calculate_delay_status, parse_datetime, timeOr]
  · have h : ts + 120 - ts = (120 : Int) := by ring
    simp only [calculate_delay_status, parse_datetime, timeOr, h]
    norm_num
    rfl
  · have h : ts - 180 - ts = (-180 : Int) := by ring
    simp only [calculate_delay_status, parse_datetime, timeOr, h]
    norm_num
    rfl
  · have h : ts + 30 - ts = (30 : Int) := by ring
    simp only [calculate_delay_status, parse_datetime, timeOr, h]
    norm_num
  · have h : ts + 90 - ts = (90 : Int) := by ring
    simp only [calculate_delay_status, parse_datetime, timeOr, h]
    norm_num
    rfl

/-! ## C5: filter matching -/

/-- C5: over filters whose destination substring is lowercase (as `get_config`
normalises them), `matches_filter` is true iff some filter's line equals the
stringified line number and its destination substring occurs case-insensitively
in the destination; the result is invariant under permuting the filter list;
and `matches("30", "Solna", [{line:"30", dest:"solna"}])` is true while
`matches("30", "Sundbyberg", ...)` is false. -/
theorem claim_C5_matches_filter (line_num : Option String) (destination : String)
    (filters : List Filter)
    (hlower : ∀ f ∈ filters, strLower f.dest = f.dest) :
    (matches_filter line_num destination filters = true ↔
      ∃ f ∈ filters, strOf line_num = f.line ∧
        strContains (strLower destination) (strLower f.dest) = true)
    ∧ (∀ filters₂, filters.Perm filters₂ →
        matches_filter line_num destination filters =
          matches_filter line_num destination filters₂)
    ∧ matches_filter (some "30") "Solna" [⟨"30", "solna"⟩] = true
    ∧ matches_filter (some "30") "Sundbyberg" [⟨"30", "solna"⟩] = false := by
  refine ⟨?_, ?_, by decide, by decide⟩
  · simp only [matches_filter, List.any_eq_true, Bool.and_eq_true, beq_iff_eq]
    constructor
    · rintro ⟨f, hf, h1, h2⟩
      exact ⟨f, hf, h1, by rw [hlower f hf]; exact h2⟩
    · rintro ⟨f, hf, h1, h2⟩
      exact ⟨f, hf, h1, by rw [hlower f hf] at h2; exact h2⟩
  · intro filters₂ hperm
    rw [Bool.eq_iff_iff]
    simp only [matches_filter, List.any_eq_true]
    constructor
    · rintro ⟨f, hf, h⟩
      exact ⟨f, hperm.mem_iff.mp hf, h⟩
    · rintro ⟨f, hf, h⟩
      exact ⟨f, hperm.mem_iff.mpr hf, h⟩

/-- Witness for C5 at the claim's concrete inputs. -/
theorem claim_C5_matches_filter_witness :
    matches_filter (some "30") "Solna" [⟨"30", "solna"⟩] = true :=
  (claim_C5_matches_filter (some "30") "Solna" [⟨"30", "solna"⟩] (by decide)).2.2.1

/-! ## C6: result cache -/

/-- C6: after `put(payload)` at `putTime`, `get(ttl)` at `now` returns the
payload iff `now - putTime < ttl`; a slot with either field unset is always a
miss; `put` replaces the whole slot with the payload and the store instant; an
immediate `get(ttl=8)` hits, and 9 seconds later `get(ttl=8)` misses. -/
theorem claim_C6_cache {α : Type} (c : Cache α) (payload : α) (putTime now ttl : Int) :
    (get_cached_data (cache_data c putTime payload) now ttl =
      if now - putTime < ttl then some payload else none)
    ∧ get_cached_data (Cache.mk (α := α) none none) now ttl = none
    ∧ (∀ ts : Int, get_cached_data (Cache.mk (α := α) none (some ts)) now ttl = none)
    ∧ (∀ d : α, get_cached_data (Cache.mk (some d) none) now ttl = none)
    ∧ cache_data c putTime payload = Cache.mk (some payload) (some putTime)
    ∧ get_cached_data (cache_data c putTime payload) putTime 8 = some payload
    ∧ get_cached_data (cache_data c putTime payload) (putTime + 9) 8 = none := by
  refine ⟨rfl, rfl, fun ts => rfl, fun d => rfl, rfl, ?_, ?_⟩
  · have h : putTime - putTime < (8 : Int) := by omega
    simp [get_cached_data, cache_data, h]
  · have h : ¬(putTime + 9 - putTime < (8 : Int)) := by omega
    simp [get_cached_data, cache_data, h]

/-! ## Structural lemmas about enrichment and the pass -/

theorem timeOr_absorb (e s : TimeStr) : timeOr (timeOr e s) s = timeOr e s := by
  cases e <;> cases s <;> rfl

theorem enrich_eq_some (dep : Departure) (ln : Option String) (filters : List Filter)
    (e : EnrichedDep) (h : enrich_departure dep ln filters = some e) :
    e.dep = dep ∧ parse_datetime dep.scheduled ≠ none ∧
      parse_datetime (timeOr dep.expected dep.scheduled) ≠ none := by
  unfold enrich_departure calculate_delay_status at h
  dsimp only at h
  rw [timeOr_absorb] at h
  cases hs : parse_datetime dep.scheduled with
  | none =>
    rw [hs] at h
    cases he' : parse_datetime (timeOr dep.expected dep.scheduled) <;>
      rw [he'] at h <;> simp at h
  | some sv =>
    rw [hs] at h
    cases he' : parse_datetime (timeOr dep.expected dep.scheduled) with
    | none =>
      rw [he'] at h
      simp at h
    | some ev =>
      rw [he'] at h
      simp only [Option.some.injEq] at h
      refine ⟨?_, by simp, by simp⟩
      rw [← h]

theorem mem_get_departures (res : FetchResult) (filters : List Filter)
    (e : EnrichedDep) (he : e ∈ (get_departures res filters).2.1) :
    parse_datetime e.dep.scheduled ≠ none ∧
      parse_datetime (timeOr e.dep.expected e.dep.scheduled) ≠ none := by
  cases res with
  | ok data =>
    simp only [get_departures, mem_pySort, List.mem_filterMap] at he
    obtain ⟨dep, hmem, hdep⟩ := he
    have hdep' : enrich_departure dep dep.line_num filters = some e := by
      by_cases hm : matches_filter dep.line_num (dep.destination.getD "Unknown") filters = true
      · rwa [if_pos hm] at hdep
      · rw [if_neg hm] at hdep
        exact absurd hdep (by simp)
    obtain ⟨hed, h1, h2⟩ := enrich_eq_some dep dep.line_num filters e hdep'
    rw [hed]
    exact ⟨h1, h2⟩
  | networkError => simp [get_departures] at he
  | timeoutError => simp [get_departures] at he
  | badStatus => simp [get_departures] at he
  | malformedPayload => simp [get_departures] at he

theorem build_group_eq_some (cfg : Config) (oracle : Nat → FetchResult) (n : String)
    (g : AggGroup) (h : build_group cfg oracle n = some g) :
    ∃ sites, cfg.grouped.lookup n = some sites ∧ g.group = n ∧
      g.stations = (sites.map (station_piece cfg oracle)).filterMap Prod.fst ∧
      g.stations ≠ [] ∧
      g.deviations =
        aggregate_deviations ((sites.map (station_piece cfg oracle)).flatMap Prod.snd) := by
  unfold build_group at h
  cases hlook : cfg.grouped.lookup n with
  | none =>
    rw [hlook] at h
    simp at h
  | some sites =>
    rw [hlook] at h
    dsimp only at h
    by_cases hemp :
        ((sites.map (station_piece cfg oracle)).filterMap Prod.fst).isEmpty = true
    · rw [if_pos hemp] at h
      simp at h
    · rw [if_neg hemp] at h
      have hg := Option.some.inj h
      subst hg
      exact ⟨sites, rfl, rfl, rfl,
        fun hnil => hemp (List.isEmpty_iff.mpr hnil), rfl⟩

theorem station_piece_fst_eq_some (cfg : Config) (oracle : Nat → FetchResult)
    (p : Nat × SiteConfig) (st : Station)
    (h : (station_piece cfg oracle p).1 = some st) :
    group_filtered (site_result cfg.grouped oracle p.1).2.1 p.2.filters ≠ [] ∧
    st.departures =
      (group_filtered (site_result cfg.grouped oracle p.1).2.1 p.2.filters).take
        cfg.max_departures ∧
    st.station = display_name_of p.2.label (site_result cfg.grouped oracle p.1).1 p.1 := by
  unfold station_piece at h
  dsimp only at h
  by_cases hemp :
      (group_filtered (site_result cfg.grouped oracle p.1).2.1 p.2.filters).isEmpty = true
  · rw [if_pos hemp] at h
    simp at h
  · rw [if_neg hemp] at h
    have hst := Option.some.inj h
    subst hst
    exact ⟨fun hnil => hemp (List.isEmpty_iff.mpr hnil), rfl, rfl⟩

theorem get_data_congr (cfg : Config) (o1 o2 : Nat → FetchResult)
    (h : site_result cfg.grouped o1 = site_result cfg.grouped o2) :
    get_data cfg o1 = get_data cfg o2 := by
  unfold get_data build_group station_piece
  simp only [h]

/-! ## C7: unparseable timestamps are dropped, in isolation -/

/-- C7: a departure whose scheduled or (defaulted) expected timestamp does not
parse enriches to `None`; removing it from an upstream response leaves the
emitted departure list of that fetch unchanged, so no other departure of the
stop or cycle is affected; and every departure emitted anywhere in a pass has
parseable scheduled and effective-expected timestamps. -/
theorem claim_C7_parse_failure_drop (dep : Departure) (ln : Option String)
    (filters : List Filter)
    (hbad : parse_datetime dep.scheduled = none ∨
        parse_datetime (timeOr dep.expected dep.scheduled) = none) :
    enrich_departure dep ln filters = none
    ∧ (∀ (l1 l2 : List Departure) (sd : List RawDeviation),
        (get_departures (.ok ⟨l1 ++ dep :: l2, sd⟩) filters).2.1 =
          (get_departures (.ok ⟨l1 ++ l2, sd⟩) filters).2.1)
    ∧ (∀ (cfg : Config) (oracle : Nat → FetchResult),
        ∀ g ∈ get_data cfg oracle, ∀ st ∈ g.stations, ∀ e ∈ st.departures,
          parse_datetime e.dep.scheduled ≠ none ∧
          parse_datetime (timeOr e.dep.expected e.dep.scheduled) ≠ none) := by
  have henr : ∀ (ln' : Option String) (filters' : List Filter),
      enrich_departure dep ln' filters' = none := by
    intro ln' filters'
    unfold enrich_departure calculate_delay_status
    dsimp only
    rw [timeOr_absorb]
    rcases hbad with hb | hb
    · rw [hb]
    · rw [hb]
      all_goals cases parse_datetime dep.scheduled <;> rfl
  refine ⟨henr ln filters, ?_, ?_⟩
  · intro l1 l2 sd
    simp only [get_departures]
    refine congrArg (fun l : List EnrichedDep => pySort depLe l) ?_
    rw [List.filterMap_append, List.filterMap_append, List.filterMap_cons_none]
    dsimp only
    by_cases hm : matches_filter dep.line_num (dep.destination.getD "Unknown") filters = true
    · rw [if_pos hm]
      exact henr _ _
    · rw [if_neg hm]
  · intro cfg oracle g hg st hst e he
    rw [get_data, List.mem_filterMap] at hg
    obtain ⟨n, -, hbg⟩ := hg
    obtain ⟨sites, hlook, -, hstations, -, -⟩ := build_group_eq_some cfg oracle n g hbg
    rw [hstations, List.mem_filterMap] at hst
    obtain ⟨piece, hpmem, hpfst⟩ := hst
    rw [List.mem_map] at hpmem
    obtain ⟨p, hp, rfl⟩ := hpmem
    obtain ⟨-, hdeps, -⟩ := station_piece_fst_eq_some cfg oracle p st hpfst
    rw [hdeps] at he
    have he' := List.mem_of_mem_take he
    rw [group_filtered] at he'
    have he'' := List.mem_of_mem_filter he'
    exact mem_get_departures (oracle p.1) (all_filters_for cfg.grouped p.1) e he''

/-- Witness for C7 at a departure with an unparseable scheduled timestamp. -/
theorem claim_C7_parse_failure_drop_witness :
    enrich_departure ⟨some "30", some "Solna", .invalid, .absent, [], none⟩
      (some "30") [] = none :=
  (claim_C7_parse_failure_drop ⟨some "30", some "Solna", .invalid, .absent, [], none⟩
    (some "30") [] (Or.inl rfl)).1

/-! ## C8: per-stop failure isolation -/

/-- C8: every caught fetch failure (network error, timeout, non-2xx status,
malformed payload) yields `(None, [], [])`; a pass over an oracle in which
some stop fails equals the pass in which that stop instead succeeds with an
empty payload, so the failure is isolated to the stop; and the pass is a total
function that at worst returns the empty list — when every fetch fails it
returns `[]` rather than raising. -/
theorem claim_C8_failure_isolation (filters : List Filter) (res : FetchResult)
    (hfail : isFailure res = true) :
    get_departures res filters = (none, [], [])
    ∧ (∀ (cfg : Config) (oracle : Nat → FetchResult) (s : Nat), oracle s = res →
        get_data cfg oracle =
          get_data cfg (fun x => if x = s then FetchResult.ok ⟨[], []⟩ else oracle x))
    ∧ (∀ cfg : Config, get_data cfg (fun _ => res) = []) := by
  have hdep : ∀ filters', get_departures res filters' = (none, [], []) := by
    intro filters'
    cases res with
    | ok r => simp [isFailure] at hfail
    | networkError => rfl
    | timeoutError => rfl
    | badStatus => rfl
    | malformedPayload => rfl
  refine ⟨hdep filters, ?_, ?_⟩
  · intro cfg oracle s hs
    apply get_data_congr
    funext x
    unfold site_result
    dsimp only
    by_cases hx : x = s
    · rw [if_pos hx, hx, hs, hdep]
      simp [get_departures, pySort]
    · rw [if_neg hx]
  · intro cfg
    rw [get_data]
    rw [List.filterMap_eq_nil_iff]
    intro n hn
    unfold build_group
    cases hlook : cfg.grouped.lookup n with
    | none => rfl
    | some sites =>
      dsimp only
      have hpieces : sites.map (station_piece cfg (fun _ => res)) =
          sites.map (fun _ => ((none : Option Station), ([] : List GDev))) := by
        apply List.map_congr_left
        intro p hp
        unfold station_piece site_result
        dsimp only
        rw [hdep]
        simp [group_filtered]
      rw [hpieces]
      have hnilf : (sites.map
          (fun _ => ((none : Option Station), ([] : List GDev)))).filterMap Prod.fst
          = [] := by
        simp
      rw [hnilf]
      rfl

/-- Witness for C8 at a network failure. -/
theorem claim_C8_failure_isolation_witness :
    get_departures FetchResult.networkError [⟨"30", "solna"⟩] = (none, [], []) :=
  (claim_C8_failure_isolation [⟨"30", "solna"⟩] FetchResult.networkError rfl).1

/-! ## Order lemmas for the departure sort -/

theorem depLe_trans (a b c : EnrichedDep) (hab : depLe a b) (hbc : depLe b c) :
    depLe a c := by
  simp only [depLe, decide_eq_true_eq] at hab hbc ⊢
  omega

theorem depLe_total (a b : EnrichedDep) : depLe a b || depLe b a := by
  simp only [depLe, Bool.or_eq_true, decide_eq_true_eq]
  omega

theorem sorted_get_departures (res : FetchResult) (filters : List Filter) :
    List.Pairwise (fun a b => sortKey a ≤ sortKey b) ((get_departures res filters).2.1) := by
  cases res with
  | ok data =>
    simp only [get_departures]
    refine List.Pairwise.imp ?_
      (pairwise_pySort depLe
        (fun a b c hab hbc => depLe_trans a b c hab hbc)
        (fun a b => depLe_total a b) _)
    intro a b h
    simpa [depLe] using h
  | networkError => simp [get_departures]
  | timeoutError => simp [get_departures]
  | badStatus => simp [get_departures]
  | malformedPayload => simp [get_departures]

theorem names_sublist_aux (cfg : Config) (oracle : Nat → FetchResult) :
    ∀ l : List String,
      ((l.filterMap (fun n => build_group cfg oracle n)).map
        (fun g => g.group)).Sublist l := by
  intro l
  induction l with
  | nil => simp
  | cons n l ih =>
    rw [List.filterMap_cons]
    cases hb : build_group cfg oracle n with
    | none => exact ih.cons n
    | some g =>
      rw [List.map_cons]
      obtain ⟨-, -, hname, -, -, -⟩ := build_group_eq_some cfg oracle n g hb
      rw [hname]
      exact ih.cons₂ n

/-! ## C3: per-station sort and truncation -/

/-- C3: in every emitted station the departures are sorted ascending by
effective time (expected when present, else scheduled) and number at most the
configured per-station maximum; with `max-departures = 2` and five matching
departures at distinct times, the emitted station holds exactly the two
earliest by effective time, in ascending order. -/
theorem claim_C3_sorted_truncated (cfg : Config) (oracle : Nat → FetchResult) :
    (∀ g ∈ get_data cfg oracle, ∀ st ∈ g.stations,
      List.Pairwise (fun a b => sortKey a ≤ sortKey b) st.departures
      ∧ st.departures.length ≤ cfg.max_departures)
    ∧ get_data
        ⟨[("TO WORK", [(1555, ⟨some "Hub", [⟨"30", "solna"⟩]⟩)])],
         ["TO WORK", "FROM WORK"], 2⟩
        (fun _ => FetchResult.ok
          ⟨[⟨some "30", some "Solna", .valid 300, .absent, [], some "X"⟩,
            ⟨some "30", some "Solna", .valid 60, .absent, [], some "X"⟩,
            ⟨some "30", some "Solna", .valid 240, .absent, [], some "X"⟩,
            ⟨some "30", some "Solna", .valid 120, .absent, [], some "X"⟩,
            ⟨some "30", some "Solna", .valid 180, .absent, [], some "X"⟩], []⟩) =
      [{ group := "TO WORK",
         stations :=
           [{ station := "Hub",
              departures :=
                [⟨⟨some "30", some "Solna", .valid 60, .absent, [], some "X"⟩,
                  "00:01", "On Time", some "30"⟩,
                 ⟨⟨some "30", some "Solna", .valid 120, .absent, [], some "X"⟩,
                  "00:02", "On Time", some "30"⟩] }],
         deviations := [] }] := by
  constructor
  · intro g hg st hst
    rw [get_data, List.mem_filterMap] at hg
    obtain ⟨n, -, hbg⟩ := hg
    obtain ⟨sites, -, -, hstations, -, -⟩ := build_group_eq_some cfg oracle n g hbg
    rw [hstations, List.mem_filterMap] at hst
    obtain ⟨piece, hpmem, hpfst⟩ := hst
    rw [List.mem_map] at hpmem
    obtain ⟨p, hp, rfl⟩ := hpmem
    obtain ⟨-, hdeps, -⟩ := station_piece_fst_eq_some cfg oracle p st hpfst
    rw [hdeps]
    constructor
    · refine List.Pairwise.sublist (List.take_sublist _ _) ?_
      rw [group_filtered]
      exact (sorted_get_departures (oracle p.1) (all_filters_for cfg.grouped p.1)).filter _
    · rw [List.length_take]
      exact min_le_left _ _
  · decide

/-- Witness for C3: the emitted station of the five-departure example is
sorted by effective time and within the limit. -/
theorem claim_C3_sorted_truncated_witness :
    List.Pairwise (fun a b => sortKey a ≤ sortKey b)
      (Station.departures
        { station := "Hub",
          departures :=
            [⟨⟨some "30", some "Solna", .valid 60, .absent, [], some "X"⟩,
              "00:01", "On Time", some "30"⟩,
             ⟨⟨some "30", some "Solna", .valid 120, .absent, [], some "X"⟩,
              "00:02", "On Time", some "30"⟩] })
    ∧ (Station.departures
        { station := "Hub",
          departures :=
            [⟨⟨some "30", some "Solna", .valid 60, .absent, [], some "X"⟩,
              "00:01", "On Time", some "30"⟩,
             ⟨⟨some "30", some "Solna", .valid 120, .absent, [], some "X"⟩,
              "00:02", "On Time", some "30"⟩] }).length ≤ 2 :=
  (claim_C3_sorted_truncated
    ⟨[("TO WORK", [(1555, ⟨some "Hub", [⟨"30", "solna"⟩]⟩)])],
     ["TO WORK", "FROM WORK"], 2⟩
    (fun _ => FetchResult.ok
      ⟨[⟨some "30", some "Solna", .valid 300, .absent, [], some "X"⟩,
        ⟨some "30", some "Solna", .valid 60, .absent, [], some "X"⟩,
        ⟨some "30", some "Solna", .valid 240, .absent, [], some "X"⟩,
        ⟨some "30", some "Solna", .valid 120, .absent, [], some "X"⟩,
        ⟨some "30", some "Solna", .valid 180, .absent, [], some "X"⟩], []⟩)).1
    { group := "TO WORK",
      stations :=
        [{ station := "Hub",
           departures :=
             [⟨⟨some "30", some "Solna", .valid 60, .absent, [], some "X"⟩,
               "00:01", "On Time", some "30"⟩,
              ⟨⟨some "30", some "Solna", .valid 120, .absent, [], some "X"⟩,
               "00:02", "On Time", some "30"⟩] }],
      deviations := [] }
    (by decide)
    { station := "Hub",
      departures :=
        [⟨⟨some "30", some "Solna", .valid 60, .absent, [], some "X"⟩,
          "00:01", "On Time", some "30"⟩,
         ⟨⟨some "30", some "Solna", .valid 120, .absent, [], some "X"⟩,
          "00:02", "On Time", some "30"⟩] }
    (by decide)

/-! ## C9: emission condition and order -/

/-- C9: every emitted group has at least one station, and stems from a
configured group one of whose sites has a non-empty group-filtered selection
of matching, enrichable (already enriched) departures; every emitted station
is the truncation of such a non-empty selection; and the emitted group names
form a sublist of the configured display order, i.e. they appear in that
order and only names from it appear. -/
theorem claim_C9_group_emission (cfg : Config) (oracle : Nat → FetchResult) :
    (∀ g ∈ get_data cfg oracle,
      g.stations ≠ []
      ∧ (∃ sites, cfg.grouped.lookup g.group = some sites ∧
          ∃ p ∈ sites,
            group_filtered (site_result cfg.grouped oracle p.1).2.1 p.2.filters ≠ [])
      ∧ (∀ st ∈ g.stations, ∃ l : List EnrichedDep, l ≠ [] ∧
          st.departures = l.take cfg.max_departures))
    ∧ ((get_data cfg oracle).map (fun g => g.group)).Sublist cfg.group_order := by
  constructor
  · intro g hg
    rw [get_data, List.mem_filterMap] at hg
    obtain ⟨n, -, hbg⟩ := hg
    obtain ⟨sites, hlook, hname, hstations, hne, -⟩ := build_group_eq_some cfg oracle n g hbg
    refine ⟨hne, ?_, ?_⟩
    · refine ⟨sites, by rw [hname]; exact hlook, ?_⟩
      obtain ⟨st, hst⟩ := List.exists_mem_of_ne_nil _ hne
      rw [hstations, List.mem_filterMap] at hst
      obtain ⟨piece, hpmem, hpfst⟩ := hst
      rw [List.mem_map] at hpmem
      obtain ⟨p, hp, rfl⟩ := hpmem
      obtain ⟨hfdne, -, -⟩ := station_piece_fst_eq_some cfg oracle p st hpfst
      exact ⟨p, hp, hfdne⟩
    · intro st hst
      rw [hstations, List.mem_filterMap] at hst
      obtain ⟨piece, hpmem, hpfst⟩ := hst
      rw [List.mem_map] at hpmem
      obtain ⟨p, hp, rfl⟩ := hpmem
      obtain ⟨hfdne, hdeps, -⟩ := station_piece_fst_eq_some cfg oracle p st hpfst
      exact ⟨group_filtered (site_result cfg.grouped oracle p.1).2.1 p.2.filters,
        hfdne, hdeps⟩
  · exact names_sublist_aux cfg oracle cfg.group_order

/-- Witness for C9: the emitted names of a one-group pass form a sublist of
the configured order. -/
theorem claim_C9_group_emission_witness :
    ((get_data
        ⟨[("TO WORK", [(1555, ⟨some "Hub", [⟨"30", "solna"⟩]⟩)])],
         ["TO WORK", "FROM WORK"], 2⟩
        (fun _ => FetchResult.ok
          ⟨[⟨some "30", some "Solna", .valid 60, .absent, [], some "X"⟩], []⟩)).map
      (fun g => g.group)).Sublist ["TO WORK", "FROM WORK"] :=
  (claim_C9_group_emission
    ⟨[("TO WORK", [(1555, ⟨some "Hub", [⟨"30", "solna"⟩]⟩)])],
     ["TO WORK", "FROM WORK"], 2⟩
    (fun _ => FetchResult.ok
      ⟨[⟨some "30", some "Solna", .valid 60, .absent, [], some "X"⟩], []⟩)).2

/-! ## C10: only names in the display order are emitted -/

/-- C10: a group name absent from the configured display order list is never
emitted, even if it is present in the monitored-route configuration — the
pass iterates only the names of the display order list. -/
theorem claim_C10_group_order_only (cfg : Config) (oracle : Nat → FetchResult)
    (gname : String) (_hmem : (cfg.grouped.lookup gname).isSome = true)
    (hnot : gname ∉ cfg.group_order) :
    gname ∉ (get_data cfg oracle).map (fun g => g.group) := by
  intro hin
  rw [List.mem_map] at hin
  obtain ⟨g, hg, hname⟩ := hin
  rw [get_data, List.mem_filterMap] at hg
  obtain ⟨n, hn, hbg⟩ := hg
  obtain ⟨-, -, hgn, -, -, -⟩ := build_group_eq_some cfg oracle n g hbg
  rw [← hname, hgn] at hnot
  exact hnot hn

/-- Witness for C10: a configured group `"OTHER"` with a matching, enrichable
departure is still never emitted because it is not in the display order. -/
theorem claim_C10_group_order_only_witness :
    "OTHER" ∉ ((get_data
        ⟨[("OTHER", [(1555, ⟨none, [⟨"30", "solna"⟩]⟩)])],
         ["TO WORK", "FROM WORK"], 10⟩
        (fun _ => FetchResult.ok
          ⟨[⟨some "30", some "Solna", .valid 60, .absent, [], some "X"⟩], []⟩)).map
      (fun g => g.group)) :=
  claim_C10_group_order_only
    ⟨[("OTHER", [(1555, ⟨none, [⟨"30", "solna"⟩]⟩)])],
     ["TO WORK", "FROM WORK"], 10⟩
    (fun _ => FetchResult.ok
      ⟨[⟨some "30", some "Solna", .valid 60, .absent, [], some "X"⟩], []⟩)
    "OTHER" (by decide) (by decide)

/-! ## C4: deviation deduplication and rendering -/

theorem specOccurrences_append_singleton (devs : List GDev) (d : GDev) (m : String) :
    specOccurrences (devs ++ [d]) m =
      specOccurrences devs m ++ (if truthyMsg d == some m then [d] else []) := by
  rw [specOccurrences, specOccurrences, List.filter_append]
  congr 1
  simp [List.filter_cons]

theorem specOccurrences_eq_nil (devs : List GDev) (m : String)
    (h : m ∉ devs.filterMap truthyMsg) : specOccurrences devs m = [] := by
  rw [specOccurrences, List.filter_eq_nil_iff]
  intro d hd
  simp only [beq_iff_eq]
  intro hc
  exact h (List.mem_filterMap.mpr ⟨d, hd, hc⟩)

theorem specOccurrences_ne_nil (devs : List GDev) (m : String)
    (h : m ∈ devs.filterMap truthyMsg) : specOccurrences devs m ≠ [] := by
  rw [List.mem_filterMap] at h
  obtain ⟨d, hd, hc⟩ := h
  intro hnil
  have hdm : d ∈ specOccurrences devs m := by
    rw [specOccurrences, List.mem_filter]
    exact ⟨hd, by simp [hc]⟩
  rw [hnil] at hdm
  exact absurd hdm (List.not_mem_nil d)

theorem specEntry_append_of_ne (devs : List GDev) (d : GDev) (m : String)
    (h : truthyMsg d ≠ some m) : specEntry (devs ++ [d]) m = specEntry devs m := by
  rw [specEntry, specEntry, specOccurrences_append_singleton,
    if_neg (by simpa using h), List.append_nil]

theorem specEntry_append_of_eq_mem (devs : List GDev) (d : GDev) (m : String)
    (hd : truthyMsg d = some m) (hne : specOccurrences devs m ≠ []) :
    specEntry (devs ++ [d]) m =
      { specEntry devs m with
        lines := unionL (specEntry devs m).lines d.lines } := by
  rw [specEntry, specEntry, specOccurrences_append_singleton, if_pos (by simp [hd])]
  cases hocc : specOccurrences devs m with
  | nil => exact absurd hocc hne
  | cons first rest =>
    simp only [List.cons_append]
    rw [List.foldl_append, List.foldl_cons, List.foldl_nil]

theorem specEntry_append_of_eq_nil (devs : List GDev) (d : GDev) (m : String)
    (hd : truthyMsg d = some m) (hnil : specOccurrences devs m = []) :
    specEntry (devs ++ [d]) m = d := by
  rw [specEntry, specOccurrences_append_singleton, hnil, if_pos (by simp [hd]),
    List.nil_append]
  rfl

theorem dedup_devs_eq_model (devs : List GDev) :
    dedup_devs devs =
      (firstDedup (devs.filterMap truthyMsg)).map (fun m => (m, specEntry devs m)) := by
  induction devs using List.reverseRecOn with
  | nil => rfl
  | append_singleton l d ih =>
    have hstep : dedup_devs (l ++ [d]) = dedupStep (dedup_devs l) d := by
      rw [dedup_devs, dedup_devs, List.foldl_append, List.foldl_cons, List.foldl_nil]
    rw [hstep, ih, List.filterMap_append]
    cases hd : truthyMsg d with
    | none =>
      have h1 : List.filterMap truthyMsg [d] = [] := by
        simp [hd]
      rw [h1, List.append_nil]
      simp only [dedupStep, hd]
      refine List.map_congr_left fun m hm => ?_
      rw [specEntry_append_of_ne l d m (by simp [hd])]
    | some m0 =>
      have h1 : List.filterMap truthyMsg [d] = [m0] := by
        simp [hd]
      rw [h1, firstDedup_concat]
      simp only [dedupStep, hd]
      by_cases hmem : m0 ∈ firstDedup (List.filterMap truthyMsg l)
      · have hlk : (List.lookup m0 ((firstDedup (List.filterMap truthyMsg l)).map
            (fun m => (m, specEntry l m)))).isSome = true := by
          rw [lookup_map_self, if_pos hmem]
          rfl
        rw [if_pos hlk, seenInsert, if_pos hmem, List.map_map]
        refine List.map_congr_left fun m hm => ?_
        simp only [Function.comp]
        by_cases hm0 : m = m0
        · subst hm0
          rw [if_pos (by simp)]
          rw [specEntry_append_of_eq_mem l d m hd
            (specOccurrences_ne_nil l m ((mem_firstDedup _ m).mp hmem))]
        · rw [if_neg (by simpa using hm0)]
          rw [specEntry_append_of_ne l d m
            (by rw [hd]; simp; exact fun hc => hm0 hc.symm)]
      · have hlk : (List.lookup m0 ((firstDedup (List.filterMap truthyMsg l)).map
            (fun m => (m, specEntry l m)))).isSome = false := by
          rw [lookup_map_self, if_neg hmem]
          rfl
        rw [if_neg (by simp [hlk]), seenInsert, if_neg hmem, List.map_append]
        congr 1
        · refine List.map_congr_left fun m hm => ?_
          have hmne : m ≠ m0 := by
            intro hc
            exact hmem (hc ▸ hm)
          rw [specEntry_append_of_ne l d m
            (by rw [hd]; simp; exact fun hc => hmne hc.symm)]
        · rw [List.map_cons, List.map_nil]
          rw [specEntry_append_of_eq_nil l d m0 hd
            (specOccurrences_eq_nil l m0 (fun hc => hmem ((mem_firstDedup _ m0).mpr hc)))]

/-- C4: the imperative dedup-and-render loop equals the specification-shaped
aggregation — one entry per distinct truthy message in first-occurrence order,
the first occurrence seeding the record (its consequence, defaulting to
`"ALERT"` at render time when absent) and later occurrences unioning their
line sets in, rendered with a `Line {sorted lines}:` prefix exactly when the
union is non-empty; and the two `"Track work"` deviations with lines
`{"30"}` and `{"41"}` aggregate to the single entry
`"Line 30, 41: [ALERT] Track work"`. -/
theorem claim_C4_deviation_aggregation :
    (∀ devs : List GDev, aggregate_deviations devs = aggregateSpec devs)
    ∧ aggregate_deviations
        [⟨some "Track work", none, ["30"]⟩, ⟨some "Track work", none, ["41"]⟩]
      = [{ message := "Line 30, 41: [ALERT] Track work", consequence := none }] := by
  constructor
  · intro devs
    rw [aggregate_deviations, aggregateSpec, dedup_devs_eq_model, List.map_map]
    rfl
  · decide

end Departures
